import Mathlib

/-!
Verification of the browser filesystem adapter
(src/filesystem/impls/browser/BrowserFileSystem.js).

The adapter composes callback-style primitive calls of an underlying
storage driver (IDBFS) into the Brackets filesystem interface.  The
development below is a shallow embedding of the adapter's logic:

* driver outcomes (native errors, native stats) are explicit values;
* each callback-style operation becomes a pure function from the
  outcomes of its primitive calls (and, where relevant, the order in
  which they complete) to the list of caller-visible callback
  invocations and synthesized change signals it performs;
* JavaScript strings are `String`/`List Char`, sparse arrays are lists
  of options, and try/finally is modelled explicitly.
-/
/-- A driver-native error: the adapter only ever inspects its name
field (BrowserFileSystem.js line 55, switch on err.name). -/
structure NativeError where
  name : String
  deriving DecidableEq

/-- A driver-native stats object: the adapter reads isFile(), mtime and
size (line 107).  Timestamps and sizes are modelled as naturals. -/
structure NativeStats where
  isFile : Bool
  mtime : Nat
  size : Nat
  deriving DecidableEq

/-- The canonical error taxonomy consumed by callers
(FileSystemError values used at lines 57, 59, 61). -/
inductive FileSystemError where
  | NOT_FOUND
  | ALREADY_EXISTS
  | UNKNOWN
  deriving DecidableEq

/-- The FileSystemStats value built at lines 107-108 from the native
stats options. -/
structure FileSystemStats where
  isFile : Bool
  mtime : Nat
  size : Nat
  deriving DecidableEq

/-- Translation of the switch on err.name (lines 55-61). -/
def mapErrorName (e : NativeError) : FileSystemError :=
  if e.name = ("ENoEntry" : String) then FileSystemError.NOT_FOUND
  else if e.name = ("EExists" : String) then FileSystemError.ALREADY_EXISTS
  else FileSystemError.UNKNOWN

/-- Lines 49-62: mapping a possibly-absent native error to a
possibly-absent canonical error; absent (falsy) input yields null. -/
def _mapError : Option NativeError → Option FileSystemError
  | none => none
  | some e => some (mapErrorName e)

/-! JavaScript string primitives used by the parent-path computation.
Strings are modelled as `List Char`. -/
/-- The largest index k ≤ n with s[k] = c, if any (indices beyond the
end of the list never match since s[k]? is then none). -/
def lastHitLe (s : List Char) (c : Char) : Nat → Option Nat
  | 0 => if s[0]? = some c then some 0 else none
  | n + 1 => if s[n + 1]? = some c then some (n + 1) else lastHitLe s c n

/-- JavaScript String.prototype.lastIndexOf for a one-character search
string with an explicit fromIndex: the start position is the fromIndex
clamped into [0, length] (a negative fromIndex still examines index 0),
and the result is the largest matching index ≤ start, or -1. -/
def jsLastIndexOfFrom (s : List Char) (c : Char) (fromIdx : Int) : Int :=
  let start : Nat := min (max fromIdx 0).toNat s.length
  match lastHitLe s c start with
  | some k => (k : Int)
  | none => -1

/-- JavaScript String.prototype.lastIndexOf without a fromIndex: the
whole string is searched. -/
def jsLastIndexOf (s : List Char) (c : Char) : Int :=
  jsLastIndexOfFrom s c (s.length : Int)

/-- Lines 64-71: parent-directory computation.  lastIndexOf the slash;
if it is the final character, search again from one position earlier;
return the prefix of length lastSlash + 1 (substr(0, lastSlash + 1)). -/
def _parentPath (path : List Char) : List Char :=
  let lastSlash : Int := jsLastIndexOf path '/'
  let lastSlash2 : Int :=
    if lastSlash = (path.length : Int) - 1 then jsLastIndexOfFrom path '/' (lastSlash - 1)
    else lastSlash
  path.take (lastSlash2 + 1).toNat

/-- String-level wrapper for the parent-path computation. -/
def parentPathStr (s : String) : String :=
  String.mk (_parentPath s.data)

/-- Parent-path as claim C10 describes it: ignore a single trailing
slash, then return the prefix of the path up to and including the last
remaining slash, or the empty string when no such slash exists.  Stated
from the claim's words, to be compared with the source translation. -/
def claimedParentPath (path : List Char) : List Char :=
  let core := if path.getLast? = some '/' then path.dropLast else path
  match lastHitLe core '/' core.length with
  | some k => path.take (k + 1)
  | none => []

/-! The stat wrapper and exists. -/
/-- Lines 102-113: the stat operation translates the primitive stat
outcome into the pair of arguments its callback receives: on error,
(mapped error, nothing); on success, (null, FileSystemStats built from
the native stats). -/
def statOutcome (res : Except NativeError NativeStats) :
    Option FileSystemError × Option FileSystemStats :=
  match res with
  | Except.error e => (some (mapErrorName e), none)
  | Except.ok ns => (none, some ⟨ns.isFile, ns.mtime, ns.size⟩)

/-- The single argument exists passes to its callback. -/
inductive ExistsCall where
  | result (b : Bool)
  deriving DecidableEq

/-- Lines 115-123: exists stats the path and calls back with false on
any stat error, true otherwise. -/
def existsModel (statRes : Except NativeError NativeStats) : List ExistsCall :=
  match (statOutcome statRes).1 with
  | some _ => [ExistsCall.result false]
  | none => [ExistsCall.result true]

/-- The boolean exists reports, as consumed by writeFile (line 216). -/
def existsOutcome (statRes : Except NativeError NativeStats) : Bool :=
  match (statOutcome statRes).1 with
  | some _ => false
  | none => true

/-! The readFile join of a read call and a stat call (lines 182-211).
The closure state (done, data, stat, err) is explicit; each of the two
completion handlers maps the current state and its primitive outcome to
an updated state plus the combined-callback invocations it performs.
The data type delivered by the primitive read is a parameter. -/
/-- Closure state shared by the two completion handlers (line 186). -/
structure RFState (α : Type) where
  done : Bool
  data : Option α
  stat : Option FileSystemStats
  err : Option FileSystemError

/-- One invocation of the combined readFile callback, with its three
arguments (error, data, stats); absent/null arguments are none. -/
inductive RFCall (α : Type) where
  | call (err : Option FileSystemError) (data : Option α) (stat : Option FileSystemStats)
  deriving DecidableEq

/-- Lines 188-200: the handler of the primitive read completion. -/
def readHandler {α : Type} (s : RFState α) (res : Except NativeError α) :
    RFState α × List (RFCall α) :=
  match res with
  | Except.error e => (s, [RFCall.call (_mapError (some e)) none none])
  | Except.ok d =>
    if s.done then
      (s, [RFCall.call s.err (if s.err.isSome then none else some d) s.stat])
    else
      ({ s with done := true, data := some d }, [])

/-- Lines 202-210: the handler of the stat completion (the stat half
goes through the stat wrapper, so it receives statOutcome). -/
def statHandler {α : Type} (s : RFState α) (res : Except NativeError NativeStats) :
    RFState α × List (RFCall α) :=
  let serr := (statOutcome res).1
  let sstat := (statOutcome res).2
  if s.done then
    (s, [RFCall.call serr (if serr.isSome then none else s.data) sstat])
  else
    ({ s with done := true, stat := sstat, err := serr }, [])

/-- Runs the two handlers in the given completion order from the fresh
closure state and reports the callback invocations performed by the
first finisher and by the second finisher separately. -/
def readFileParts (α : Type) (readRes : Except NativeError α)
    (statRes : Except NativeError NativeStats) (readFirst : Bool) :
    List (RFCall α) × List (RFCall α) :=
  let s0 : RFState α := ⟨false, none, none, none⟩
  if readFirst then
    let r1 := readHandler s0 readRes
    let r2 := statHandler r1.1 statRes
    (r1.2, r2.2)
  else
    let r1 := statHandler s0 statRes
    let r2 := readHandler r1.1 readRes
    (r1.2, r2.2)

/-- All combined-callback invocations of one readFile call, in order. -/
def readFileModel (α : Type) (readRes : Except NativeError α)
    (statRes : Except NativeError NativeStats) (readFirst : Bool) : List (RFCall α) :=
  (readFileParts α readRes statRes readFirst).1 ++ (readFileParts α readRes statRes readFirst).2

/-! The write coordinators: writeFile (lines 213-237), mkdir (lines
151-170) and unlink (lines 239-248).  Each is modelled as a function
from the outcomes of its primitive calls (and whether the caller's
callback throws) to the ordered list of events it performs plus whether
an exception escapes. -/
/-- Events performed by a write-coordinated operation, in order: a stat
call issued on the target path after the primitive succeeded, an
invocation of the caller's callback with its (error, stats) arguments,
and a synthesized change signal handed to the watcher callback with its
(path, stats) arguments. -/
inductive WFEvent where
  | statCall (path : String)
  | cb (err : Option FileSystemError) (stat : Option FileSystemStats)
  | signal (path : String) (stat : Option FileSystemStats)
  deriving DecidableEq

def WFEvent.isSignal : WFEvent → Bool
  | WFEvent.signal _ _ => true
  | _ => false

def WFEvent.isCb : WFEvent → Bool
  | WFEvent.cb _ _ => true
  | _ => false

/-- JavaScript try/finally around the caller's callback: the events of
the finally block are performed whether or not the callback throws
(the exception, if any, escapes afterwards). -/
def tryFinallyCb (cbEvents : List WFEvent) (cbThrows : Bool)
    (finallyEvents : List WFEvent) : List WFEvent × Bool :=
  (cbEvents ++ finallyEvents, cbThrows)

/-- Lines 213-237: writeFile.  The pre-write exists check feeds the
alreadyExists flag (failure of the pre-write stat counts as
nonexistent).  On primitive write failure the translated error is
returned at once.  On success a stat is issued, the caller's callback
runs with its outcome inside try, and the finally block signals the
path itself (with the fresh stats) when the path pre-existed, else the
parent directory. -/
def writeFileModel (path : String) (preStatRes : Except NativeError NativeStats)
    (writeRes : Option NativeError) (postStatRes : Except NativeError NativeStats)
    (cbThrows : Bool) : List WFEvent × Bool :=
  let alreadyExists := existsOutcome preStatRes
  match writeRes with
  | some err => ([WFEvent.cb (_mapError (some err)) none], cbThrows)
  | none =>
    let r := tryFinallyCb
      [WFEvent.cb (statOutcome postStatRes).1 (statOutcome postStatRes).2] cbThrows
      (if alreadyExists then [WFEvent.signal path (statOutcome postStatRes).2]
       else [WFEvent.signal (parentPathStr path) none])
    (WFEvent.statCall path :: r.1, r.2)

/-- Lines 151-170: mkdir.  On primitive failure the translated error is
returned and nothing else happens; on success a stat is issued, the
caller's callback runs with its outcome inside try, and the finally
block signals the parent directory. -/
def mkdirModel (path : String) (mkRes : Option NativeError)
    (statRes : Except NativeError NativeStats) (cbThrows : Bool) : List WFEvent × Bool :=
  match mkRes with
  | some err => ([WFEvent.cb (_mapError (some err)) none], cbThrows)
  | none =>
    let r := tryFinallyCb
      [WFEvent.cb (statOutcome statRes).1 (statOutcome statRes).2] cbThrows
      [WFEvent.signal (parentPathStr path) none]
    (WFEvent.statCall path :: r.1, r.2)

/-- Lines 239-248: unlink.  The caller's callback runs with the
translated primitive outcome inside try, and the finally block signals
the parent directory; no stat is ever issued. -/
def unlinkModel (path : String) (unRes : Option NativeError) (cbThrows : Bool) :
    List WFEvent × Bool :=
  tryFinallyCb [WFEvent.cb (_mapError unRes) none] cbThrows
    [WFEvent.signal (parentPathStr path) none]

/-- The trace contains exactly one caller-callback invocation and
exactly one change signal, and the callback strictly precedes the
signal. -/
def notifyAfterCallback (t : List WFEvent) : Prop :=
  t.countP WFEvent.isSignal = 1 ∧ t.countP WFEvent.isCb = 1 ∧
    t.findIdx WFEvent.isCb < t.findIdx WFEvent.isSignal

/-! The change-notification layer (lines 45-47, 165, 226-229, 245,
256, 268).  The file declares the batching state _pendingChanges (a
pending set) and _changeTimeout together with the constant
FILE_WATCHER_BATCH_TIMEOUT = 200, but no statement in the file ever
reads or writes them: every operation site invokes the registered
change listener _changeCallback directly, once per raw signal. -/
/-- Line 43: the declared batching window, in milliseconds. -/
def FILE_WATCHER_BATCH_TIMEOUT : Nat := 200

/-- Lines 45-47: the notification layer's mutable state.  The pending
set is modelled as the list of recorded paths; no code in the file ever
adds to it or arms the timeout. -/
structure NotifState where
  pendingChanges : List String
  timeoutArmed : Bool
  deriving DecidableEq

def initialNotifState : NotifState := ⟨[], false⟩

/-- One raw change signal, which is also the argument shape of a
listener invocation: a specific path (with optional stats, line 227)
or the wholesale null signal (line 268). -/
inductive ChangeSignal where
  | specific (path : String) (stat : Option FileSystemStats)
  | wholesale
  deriving DecidableEq

/-- Delivery of one raw change signal, as the operation sites perform
it (lines 165, 227, 229, 245, 256, 268): the registered listener is
invoked immediately with the signal and the batching state is left
untouched. -/
def deliverSignal (s : NotifState) (sig : ChangeSignal) : NotifState × List ChangeSignal :=
  (s, [sig])

/-- Delivery of a sequence of raw change signals, accumulating the
listener invocations in order. -/
def deliverSignals (s : NotifState) : List ChangeSignal → NotifState × List ChangeSignal
  | [] => (s, [])
  | sig :: rest =>
    let r1 := deliverSignal s sig
    let r2 := deliverSignals r1.1 rest
    (r2.1, r1.2 ++ r2.2)

/-! The readdir completion barrier (lines 125-149).  After a
successful enumeration, one stat call is issued per entry; each
completion stores its outcome at the entry's original index in the
shared stats array and decrements the shared count; the callback fires
when the count reaches zero.  Completion order is an explicit list of
entry indices. -/
/-- The value stored in one slot of readdir's stats array (line 141,
stats[idx] = err || stat): the mapped error when that entry's stat
failed, else its FileSystemStats. -/
abbrev StatSlot := Sum FileSystemError FileSystemStats

/-- Line 141 through the stat wrapper of lines 102-113. -/
def statSlotOf (o : Except NativeError NativeStats) : StatSlot :=
  match o with
  | Except.error e => Sum.inl (mapErrorName e)
  | Except.ok ns => Sum.inr ⟨ns.isFile, ns.mtime, ns.size⟩

/-- One invocation of readdir's callback: an overall failure (line
128), or the success shape (error slot null) with the names and the
stats array, whose unassigned slots are none. -/
inductive RDCall where
  | fail (e : FileSystemError)
  | done (names : List String) (stats : List (Option StatSlot))
  deriving DecidableEq

/-- Lines 139-147: process the per-entry stat completions in the given
order, threading the shared stats array and the shared count; each
completion stores its slot, decrements the count, and fires the
callback when the count has reached zero. -/
def rdGo (names : List String) (outs : List (Except NativeError NativeStats)) :
    List (Fin outs.length) → List (Option StatSlot) → Int →
      List (Option StatSlot) × List RDCall
  | [], stats, _ => (stats, [])
  | idx :: rest, stats, count =>
    let stats1 := stats.set idx.val (some (statSlotOf (outs.get idx)))
    let count1 := count - 1
    let emitted := if count1 ≤ 0 then [RDCall.done names stats1] else []
    let r := rdGo names outs rest stats1 count1
    (r.1, emitted ++ r.2)

/-- Lines 125-149: readdir.  On enumeration failure the mapped error is
delivered; on an empty listing the callback fires immediately with two
empty arrays; otherwise the per-entry stat completions are processed in
the given completion order starting from an unassigned stats array and
a count equal to the number of entries. -/
def readdirModel (enumRes : Except NativeError (List String))
    (outs : List (Except NativeError NativeStats)) (order : List (Fin outs.length)) :
    List RDCall :=
  match enumRes with
  | Except.error e => [RDCall.fail (mapErrorName e)]
  | Except.ok contents =>
    if contents.length = 0 then [RDCall.done [] []]
    else (rdGo contents outs order (List.replicate outs.length none) (contents.length : Int)).2

/-- Concrete per-entry outcomes: entry 0 stats successfully, entry 1
fails with ENoEntry. -/
def rdOutsWitness : List (Except NativeError NativeStats) :=
  [Except.ok ⟨true, 1, 2⟩, Except.error ⟨("ENoEntry" : String)⟩]

/-- Concrete completion order: entry 1 finishes before entry 0. -/
def rdOrderWitness : List (Fin rdOutsWitness.length) :=
  [⟨1, by decide⟩, ⟨0, by decide⟩]

/-- C4: for every readFile call and every interleaving of the two
underlying completions, each completing exactly once with an error or a
result, the combined callback is invoked exactly once — never zero
times and never twice. -/
theorem readFile_exactly_once (α : Type) (readRes : Except NativeError α)
    (statRes : Except NativeError NativeStats) (readFirst : Bool) :
    (readFileModel α readRes statRes readFirst).length = 1 := by
  cases readRes <;> cases statRes <;> cases readFirst <;>
    simp [readFileModel, readFileParts, readHandler, statHandler, statOutcome]

/-- C3: whenever the read half of readFile fails, the combined callback
receives exactly that read failure translated to a canonical error and
neither data nor stats, whatever the stat half does and whichever half
finishes first; and when the read half succeeds but the stat half
fails, the combined result is still a failure (the stat error, with no
data and no stats), so success requires both halves to succeed. -/
theorem readFile_failure_priority (α : Type) (e : NativeError)
    (statRes : Except NativeError NativeStats) (readFirst : Bool)
    (d : α) (e2 : NativeError) (readFirst2 : Bool) :
    readFileModel α (Except.error e) statRes readFirst
      = [RFCall.call (some (mapErrorName e)) none none] ∧
    readFileModel α (Except.ok d) (Except.error e2) readFirst2
      = [RFCall.call (some (mapErrorName e2)) none none] := by
  constructor
  · cases statRes <;> cases readFirst <;>
      simp [readFileModel, readFileParts, readHandler, statHandler, statOutcome, _mapError]
  · cases readFirst2 <;>
      simp [readFileModel, readFileParts, readHandler, statHandler, statOutcome]

/-- C5 counterexample: when the read half fails and finishes first, the
first finisher does not merely record its outcome — it invokes the
combined callback immediately, before the stat half has completed (the
stat half, finishing second, then emits nothing). -/
theorem readFile_first_finisher_calls_cex :
    (readFileParts String (Except.error ⟨("ENoEntry" : String)⟩) (Except.ok ⟨false, 0, 0⟩) true).1
      = [RFCall.call (some FileSystemError.NOT_FOUND) none none] ∧
    (readFileParts String (Except.error ⟨("ENoEntry" : String)⟩) (Except.ok ⟨false, 0, 0⟩) true).2
      = [] := by
  constructor <;> decide

/-- C5 amended: the first of the two calls to finish records its
outcome without invoking the combined callback, and the second finisher
triggers the single combined callback — except when the read half fails
and finishes first, in which case the read handler invokes the combined
callback immediately and the stat half later records silently. -/
theorem readFile_completion_policy_amended (α : Type) (d : α) (e : NativeError)
    (statRes : Except NativeError NativeStats) (readFirst : Bool) :
    ((readFileParts α (Except.ok d) statRes readFirst).1 = [] ∧
      (readFileParts α (Except.ok d) statRes readFirst).2.length = 1) ∧
    ((readFileParts α (Except.error e) statRes false).1 = [] ∧
      (readFileParts α (Except.error e) statRes false).2.length = 1) ∧
    ((readFileParts α (Except.error e) statRes true).1.length = 1 ∧
      (readFileParts α (Except.error e) statRes true).2 = []) := by
  refine ⟨⟨?_, ?_⟩, ⟨?_, ?_⟩, ?_, ?_⟩ <;>
    cases statRes <;> cases readFirst <;>
      simp [readFileParts, readHandler, statHandler, statOutcome]

/-- C9: for every path and every outcome of the underlying stat,
exists invokes its callback exactly once, with only the boolean true
when the stat succeeds and false when it fails for any reason, and
never with an error argument (the callback's argument list is a bare
boolean by construction). -/
theorem exists_total_boolean (ns : NativeStats) (e : NativeError) :
    existsModel (Except.ok ns) = [ExistsCall.result true] ∧
    existsModel (Except.error e) = [ExistsCall.result false] := by
  constructor <;> simp [existsModel, statOutcome]

/-- C6: for every writeFile call, if the primitive write fails the
translated error is delivered at once with no stat call and no change
signal; after a successful write with a failed pre-write existence
check (path treated as nonexistent) the single change signal targets
the parent directory; after a successful write on a pre-existing path
the single change signal targets the path itself and carries the
outcome of the post-write stat. -/
theorem writeFile_branching (path : String) (preStatRes : Except NativeError NativeStats)
    (e : NativeError) (postStatRes : Except NativeError NativeStats) (cbThrows : Bool)
    (ns : NativeStats) (e2 : NativeError) :
    writeFileModel path preStatRes (some e) postStatRes cbThrows
      = ([WFEvent.cb (some (mapErrorName e)) none], cbThrows) ∧
    writeFileModel path (Except.error e2) none postStatRes cbThrows
      = ([WFEvent.statCall path,
          WFEvent.cb (statOutcome postStatRes).1 (statOutcome postStatRes).2,
          WFEvent.signal (parentPathStr path) none], cbThrows) ∧
    writeFileModel path (Except.ok ns) none postStatRes cbThrows
      = ([WFEvent.statCall path,
          WFEvent.cb (statOutcome postStatRes).1 (statOutcome postStatRes).2,
          WFEvent.signal path (statOutcome postStatRes).2], cbThrows) := by
  refine ⟨?_, ?_, ?_⟩ <;>
    simp [writeFileModel, tryFinallyCb, existsOutcome, statOutcome, _mapError]

/-- C7 counterexample: a concrete mkdir call whose primitive create
fails emits no change signal at all, although the claim demands a
parent-directory signal for every mkdir call regardless of success or
failure. -/
theorem mkdir_failure_no_signal_cex :
    ((mkdirModel ("/a/b" : String) (some ⟨("EExists" : String)⟩)
        (Except.ok ⟨false, 0, 0⟩) false).1.countP WFEvent.isSignal) = 0 := by
  decide

/-- C7 amended: unlink emits exactly one parent-directory change signal
after the caller's callback whatever the primitive outcome and performs
no stat call; mkdir emits the parent-directory signal (after its
callback) only when the primitive create succeeds — a failed create
returns the translated error with no signal. -/
theorem mkdir_unlink_signals_amended (path : String) (unRes : Option NativeError)
    (e : NativeError) (statRes : Except NativeError NativeStats) (cbThrows : Bool) :
    unlinkModel path unRes cbThrows
      = ([WFEvent.cb (_mapError unRes) none,
          WFEvent.signal (parentPathStr path) none], cbThrows) ∧
    mkdirModel path (some e) statRes cbThrows
      = ([WFEvent.cb (some (mapErrorName e)) none], cbThrows) ∧
    mkdirModel path none statRes cbThrows
      = ([WFEvent.statCall path,
          WFEvent.cb (statOutcome statRes).1 (statOutcome statRes).2,
          WFEvent.signal (parentPathStr path) none], cbThrows) := by
  refine ⟨?_, ?_, ?_⟩ <;> simp [unlinkModel, mkdirModel, tryFinallyCb, _mapError]

/-- C8: in writeFile after a successful write, in mkdir after a
successful create, and in unlink, the caller's callback is invoked
strictly before the derived change signal, and the signal is emitted
exactly once even when the caller's callback throws (the quantified
cbThrows covers both outcomes; the finally block runs regardless). -/
theorem write_coordinator_notify_after_callback (path : String)
    (preStatRes postStatRes mkStatRes : Except NativeError NativeStats)
    (unRes : Option NativeError) (cbThrows : Bool) :
    notifyAfterCallback (writeFileModel path preStatRes none postStatRes cbThrows).1 ∧
    notifyAfterCallback (mkdirModel path none mkStatRes cbThrows).1 ∧
    notifyAfterCallback (unlinkModel path unRes cbThrows).1 := by
  refine ⟨?_, ?_, ?_⟩ <;>
    simp only [writeFileModel, mkdirModel, unlinkModel, tryFinallyCb, notifyAfterCallback] <;>
    cases h : existsOutcome preStatRes <;>
      simp [List.countP, List.countP.go, List.findIdx, List.findIdx.go,
        WFEvent.isSignal, WFEvent.isCb]

/-- Invariant of the completion loop: starting from a stats array in
which exactly the entries outside the remaining completion list are
assigned, and a count equal to the number of remaining completions, the
loop assigns every slot to its entry's outcome and fires the callback
exactly at the last completion (never, if none remain). -/
theorem rdGo_spec (names : List String) (outs : List (Except NativeError NativeStats))
    (order : List (Fin outs.length)) :
    ∀ stats : List (Option StatSlot),
      order.Nodup → stats.length = outs.length →
      (∀ i : Fin outs.length, i ∉ order →
        stats[i.val]? = some (some (statSlotOf (outs.get i)))) →
      ((rdGo names outs order stats (order.length : Int)).1.length = outs.length ∧
       (∀ i : Fin outs.length,
         (rdGo names outs order stats (order.length : Int)).1[i.val]?
           = some (some (statSlotOf (outs.get i)))) ∧
       (rdGo names outs order stats (order.length : Int)).2
         = if order.isEmpty then []
           else [RDCall.done names (rdGo names outs order stats (order.length : Int)).1]) := by
  induction order with
  | nil =>
    intro stats _ hlen hset
    exact ⟨hlen, fun i => hset i (List.not_mem_nil i), rfl⟩
  | cons idx rest ih =>
    intro stats hnd hlen hset
    have hc1 : ((List.length (idx :: rest) : Int)) - 1 = (rest.length : Int) := by
      simp [List.length_cons]
    have hvlt : idx.val < stats.length := by
      rw [hlen]; exact idx.isLt
    have hset1 : ∀ i : Fin outs.length, i ∉ rest →
        (stats.set idx.val (some (statSlotOf (outs.get idx))))[i.val]?
          = some (some (statSlotOf (outs.get i))) := by
      intro i hi
      by_cases hii : i = idx
      · subst hii
        exact List.getElem?_set_eq_of_lt _ hvlt
      · have hvv : idx.val ≠ i.val := fun h => hii (Fin.ext h.symm)
        rw [List.getElem?_set_ne hvv]
        exact hset i (by simp [hii, hi])
    have hnd1 : rest.Nodup := (List.nodup_cons.mp hnd).2
    have hlen1 : (stats.set idx.val (some (statSlotOf (outs.get idx)))).length
        = outs.length := by simp [hlen]
    obtain ⟨h1, h2, h3⟩ := ih (stats.set idx.val (some (statSlotOf (outs.get idx))))
      hnd1 hlen1 hset1
    cases rest with
    | nil =>
      refine ⟨by simpa [rdGo] using h1, ?_, by simp [rdGo]⟩
      intro i
      simpa [rdGo] using h2 i
    | cons idx2 rest2 =>
      have hpos : ¬ (((idx2 :: rest2).length : Int) ≤ 0) := by
        rw [List.length_cons]
        omega
      refine ⟨?_, ?_, ?_⟩
      · simpa [rdGo, hc1, hpos] using h1
      · intro i
        simpa [rdGo, hc1, hpos] using h2 i
      · have h3e := h3
        simp only [List.isEmpty_cons] at h3e
        simp [rdGo, hc1, hpos]
        simpa [rdGo, hc1, hpos] using h3e

/-- C2: for every directory whose enumeration succeeds with N names
and for every completion order of the N concurrent per-entry stat
calls, readdir invokes its callback exactly once, with a null overall
error, the ordered names, and a stats array of length N whose slot i
holds the outcome of entry i (its stats on success, its mapped error on
failure); a single entry's failure does not fail the overall call, and
for N = 0 the callback receives two empty arrays. -/
theorem readdir_order_preservation (contents : List String)
    (outs : List (Except NativeError NativeStats)) (hlen : outs.length = contents.length)
    (order : List (Fin outs.length)) (hord : order.Perm (List.finRange outs.length)) :
    readdirModel (Except.ok contents) outs order
      = [RDCall.done contents (outs.map (fun o => some (statSlotOf o)))] := by
  by_cases hz : contents.length = 0
  · have hco : contents = [] := List.length_eq_zero.mp hz
    have hou : outs = [] := List.length_eq_zero.mp (by rw [hlen, hz])
    subst hco
    simp [readdirModel, hou]
  · have horder : order.length = outs.length := by
      rw [hord.length_eq, List.length_finRange]
    have hnd : order.Nodup := hord.nodup_iff.mpr (List.nodup_finRange _)
    have hmem : ∀ i : Fin outs.length, i ∈ order :=
      fun i => hord.mem_iff.mpr (List.mem_finRange i)
    have hcount : (contents.length : Int) = (order.length : Int) := by
      rw [horder, hlen]
    have hone : order ≠ [] := by
      intro h
      apply hz
      rw [← hlen, ← horder, h]
      rfl
    obtain ⟨h1, h2, h3⟩ := rdGo_spec contents outs order (List.replicate outs.length none)
      hnd (List.length_replicate _ _) (fun i hi => absurd (hmem i) hi)
    have hie : order.isEmpty = false := by
      cases order with
      | nil => exact absurd rfl hone
      | cons a l => rfl
    simp only [hie, Bool.false_eq_true, if_false] at h3
    have hfinal : (rdGo contents outs order (List.replicate outs.length none)
        (order.length : Int)).1 = outs.map (fun o => some (statSlotOf o)) := by
      apply List.ext_getElem?
      intro n
      by_cases hn : n < outs.length
      · have hmap : (outs.map (fun o => some (statSlotOf o)))[n]?
            = some (some (statSlotOf (outs.get ⟨n, hn⟩))) := by
          rw [List.getElem?_map, List.getElem?_eq_getElem hn]
          rfl
        rw [hmap]
        exact h2 ⟨n, hn⟩
      · have hge : outs.length ≤ n := le_of_not_lt hn
        rw [List.getElem?_eq_none (by rw [h1]; exact hge),
          List.getElem?_eq_none (by rw [List.length_map]; exact hge)]
    simp only [readdirModel, if_neg hz]
    rw [hcount, h3, hfinal]

/-- Witness for C2: a two-entry directory, completions in reverse
order, one entry failing — the single callback still carries the
outcomes in input order. -/
theorem readdir_order_preservation_witness :
    readdirModel (Except.ok ["a", "b"]) rdOutsWitness rdOrderWitness
      = [RDCall.done ["a", "b"]
          [some (Sum.inr ⟨true, 1, 2⟩), some (Sum.inl FileSystemError.NOT_FOUND)]] := by
  have h := readdir_order_preservation ["a", "b"] rdOutsWitness (by decide)
    rdOrderWitness (by decide)
  rw [h]
  decide

/-! Characterization of the backward search used by the parent-path
computation, and the equivalence between the source computation and the
claim's description of it everywhere except at the one-character path
consisting of the slash alone. -/
theorem lastHitLe_eq_some (s : List Char) (c : Char) :
    ∀ n k : Nat, lastHitLe s c n = some k →
      s[k]? = some c ∧ k ≤ n ∧ ∀ j, k < j → j ≤ n → s[j]? ≠ some c := by
  intro n
  induction n with
  | zero =>
    intro k h
    by_cases h0 : s[0]? = some c
    · simp only [lastHitLe, if_pos h0, Option.some.injEq] at h
      subst h
      exact ⟨h0, Nat.le_refl 0, fun j hj1 hj2 => absurd (Nat.lt_of_lt_of_le hj1 hj2)
        (Nat.lt_irrefl 0)⟩
    · simp only [lastHitLe, if_neg h0] at h
      exact absurd h (Option.noConfusion)
  | succ n ih =>
    intro k h
    by_cases hn : s[n + 1]? = some c
    · simp only [lastHitLe, if_pos hn, Option.some.injEq] at h
      subst h
      exact ⟨hn, Nat.le_refl _, fun j hj1 hj2 => absurd hj2 (Nat.not_le_of_lt hj1)⟩
    · simp only [lastHitLe, if_neg hn] at h
      obtain ⟨h1, h2, h3⟩ := ih k h
      refine ⟨h1, Nat.le_succ_of_le h2, ?_⟩
      intro j hj1 hj2
      rcases Nat.lt_succ_iff_lt_or_eq.mp (Nat.lt_succ_of_le hj2) with hj | hj
      · exact h3 j hj1 (Nat.lt_succ_iff.mp hj)
      · rw [hj]; exact hn

theorem lastHitLe_eq_none (s : List Char) (c : Char) :
    ∀ n : Nat, lastHitLe s c n = none → ∀ j, j ≤ n → s[j]? ≠ some c := by
  intro n
  induction n with
  | zero =>
    intro h j hj
    by_cases h0 : s[0]? = some c
    · simp only [lastHitLe, if_pos h0] at h
      exact Option.noConfusion h
    · rw [Nat.le_zero.mp hj]; exact h0
  | succ n ih =>
    intro h j hj
    by_cases hn : s[n + 1]? = some c
    · simp only [lastHitLe, if_pos hn] at h
      exact Option.noConfusion h
    · simp only [lastHitLe, if_neg hn] at h
      rcases Nat.lt_succ_iff_lt_or_eq.mp (Nat.lt_succ_of_le hj) with hj2 | hj2
      · exact ih h j (Nat.lt_succ_iff.mp hj2)
      · rw [hj2]; exact hn

theorem lastHitLe_of (s : List Char) (c : Char) :
    ∀ n k : Nat, s[k]? = some c → k ≤ n →
      (∀ j, k < j → j ≤ n → s[j]? ≠ some c) → lastHitLe s c n = some k := by
  intro n
  induction n with
  | zero =>
    intro k h1 h2 _
    rw [Nat.le_zero.mp h2] at h1 ⊢
    simp only [lastHitLe, if_pos h1]
  | succ n ih =>
    intro k h1 h2 h3
    by_cases hk : k = n + 1
    · subst hk
      simp only [lastHitLe, if_pos h1]
    · have hkn : k ≤ n := Nat.lt_succ_iff.mp (Nat.lt_of_le_of_ne h2 hk)
      have hn : s[n + 1]? ≠ some c :=
        h3 (n + 1) (Nat.lt_succ_of_le hkn) (Nat.le_refl _)
      simp only [lastHitLe, if_neg hn]
      exact ih k h1 hkn (fun j hj1 hj2 => h3 j hj1 (Nat.le_succ_of_le hj2))

/-- A backward search from a nonnegative start position clamps to the
smaller of the start position and the length. -/
theorem jsLastIndexOfFrom_ofNat (s : List Char) (c : Char) (m : Nat) :
    jsLastIndexOfFrom s c (m : Int)
      = match lastHitLe s c (min m s.length) with
        | some k => (k : Int)
        | none => -1 := by
  have hmax : max (m : Int) 0 = (m : Int) := max_eq_left (Int.ofNat_nonneg m)
  simp only [jsLastIndexOfFrom, hmax, Int.toNat_ofNat]

/-- Searching the whole string up to index length - 2 is the same as
searching the string less its final character. -/
theorem lastHitLe_dropLast (s : List Char) (c : Char) (h2 : 2 ≤ s.length) :
    lastHitLe s c (s.length - 2) = lastHitLe s.dropLast c (s.length - 1) := by
  have hdl : ∀ j : Nat, j < s.length - 1 → (s.dropLast)[j]? = s[j]? := by
    intro j hj
    rw [List.dropLast_eq_take, List.getElem?_take, if_pos hj]
  cases h : lastHitLe s c (s.length - 2) with
  | some k =>
    obtain ⟨hk1, hk2, hk3⟩ := lastHitLe_eq_some s c _ k h
    have hklt : k < s.length - 1 := by omega
    refine (lastHitLe_of s.dropLast c (s.length - 1) k ?_ (by omega) ?_).symm
    · rw [hdl k hklt]; exact hk1
    · intro j hj1 hj2
      by_cases hje : j < s.length - 1
      · rw [hdl j hje]
        exact hk3 j hj1 (by omega)
      · rw [List.getElem?_eq_none_iff.mpr (by rw [List.length_dropLast]; omega)]
        exact Option.noConfusion
  | none =>
    cases h2r : lastHitLe s.dropLast c (s.length - 1) with
    | none => rfl
    | some k =>
      obtain ⟨hk1, _, _⟩ := lastHitLe_eq_some s.dropLast c _ k h2r
      have hklt : k < s.length - 1 := by
        by_contra hge
        rw [List.getElem?_eq_none_iff.mpr (by rw [List.length_dropLast]; omega)] at hk1
        exact Option.noConfusion hk1
      rw [hdl k hklt] at hk1
      exact absurd hk1 (lastHitLe_eq_none s c _ h k (by omega))

/-- C10 counterexample: at the one-character path consisting of the
slash alone, the source computation returns the slash itself, while the
claim's description (ignore the trailing slash; no slash remains, so
the result is empty) yields the empty path. -/
theorem parentPath_root_cex :
    _parentPath ['/'] = ['/'] ∧ claimedParentPath ['/'] = [] := by
  constructor <;> decide

/-- C10 amended: for every path other than the one-character path
consisting of the slash alone, the parent-path computation ignores a
single trailing slash and returns the prefix of the path up to and
including the last remaining slash (empty when no such slash exists);
at that one excluded path, the backward search's start position clamps
to index 0, re-finds the trailing slash, and the function returns the
slash itself instead of the empty string. -/
theorem parentPath_spec_amended (p : List Char) (hp : p ≠ ['/']) :
    _parentPath p = claimedParentPath p := by
  by_cases hnil : p = []
  · subst hnil; decide
  · have hn1 : 1 ≤ p.length := List.length_pos.mpr hnil
    by_cases hlast : p.getLast? = some '/'
    · have hlastE : p[p.length - 1]? = some '/' := by
        rw [← List.getLast?_eq_getElem?]; exact hlast
      by_cases h1 : p.length = 1
      · obtain ⟨a, ha⟩ := List.length_eq_one.mp h1
        rw [ha] at hlastE
        simp only [List.length_cons, List.length_nil, Nat.zero_add, Nat.sub_self,
          List.getElem?_cons_zero, Option.some.injEq] at hlastE
        exact absurd (ha.trans (by rw [hlastE])) hp
      · have h2t : 2 ≤ p.length := by omega
        have hfull : lastHitLe p '/' p.length = some (p.length - 1) := by
          apply lastHitLe_of
          · exact hlastE
          · exact Nat.sub_le _ _
          · intro j hj1 hj2
            have hj : j = p.length := by omega
            rw [hj, List.getElem?_eq_none_iff.mpr (Nat.le_refl _)]
            exact Option.noConfusion
        have hjs : jsLastIndexOf p '/' = ((p.length - 1 : Nat) : Int) := by
          rw [jsLastIndexOf, jsLastIndexOfFrom_ofNat, min_self, hfull]
        have hc2 : ((p.length - 1 : Nat) : Int) - 1 = ((p.length - 2 : Nat) : Int) := by
          omega
        have hmin2 : min (p.length - 2) p.length = p.length - 2 := by omega
        simp only [_parentPath, claimedParentPath, if_pos hlast]
        rw [hjs, if_pos (by omega : ((p.length - 1 : Nat) : Int) = (p.length : Int) - 1)]
        rw [hc2, jsLastIndexOfFrom_ofNat, hmin2, lastHitLe_dropLast p '/' h2t,
          List.length_dropLast]
        cases hres : lastHitLe p.dropLast '/' (p.length - 1) with
        | some k =>
          show p.take ((k : Int) + 1).toNat = p.take (k + 1)
          congr 1
        | none =>
          show p.take ((-1 : Int) + 1).toNat = []
          simp
    · have hlastE : p[p.length - 1]? ≠ some '/' := by
        rw [← List.getLast?_eq_getElem?]; exact hlast
      simp only [_parentPath, claimedParentPath, if_neg hlast, jsLastIndexOf,
        jsLastIndexOfFrom_ofNat, min_self]
      cases hres : lastHitLe p '/' p.length with
      | some k =>
        obtain ⟨hk1, hk2, hk3⟩ := lastHitLe_eq_some p '/' _ k hres
        have hklt : k < p.length := by
          by_contra hge
          rw [List.getElem?_eq_none_iff.mpr (by omega)] at hk1
          exact Option.noConfusion hk1
        have hkne : k ≠ p.length - 1 := fun h => hlastE (h ▸ hk1)
        rw [if_neg (by omega : ¬ ((k : Int) = (p.length : Int) - 1))]
        show p.take ((k : Int) + 1).toNat = p.take (k + 1)
        congr 1
      | none =>
        rw [if_neg (by omega : ¬ ((-1 : Int) = (p.length : Int) - 1))]
        show p.take ((-1 : Int) + 1).toNat = []
        simp

/-- C1 evaluation at the failing input: two change signals for the same
path inside one batching window produce two immediate listener
invocations, not one, and the declared pending set and timer are never
touched — there is no accumulation and no flush. -/
theorem changeSignals_immediate_eval :
    (deliverSignals initialNotifState
        [ChangeSignal.specific ("/a/b.txt" : String) none,
         ChangeSignal.specific ("/a/b.txt" : String) none]).2
      = [ChangeSignal.specific ("/a/b.txt" : String) none,
         ChangeSignal.specific ("/a/b.txt" : String) none] ∧
    (deliverSignals initialNotifState
        [ChangeSignal.specific ("/a/b.txt" : String) none,
         ChangeSignal.specific ("/a/b.txt" : String) none]).1
      = initialNotifState := by
  constructor <;> rfl

/-- Witness for the amended C10, at the claim's own example: the path
with a single trailing slash satisfies the amended equivalence, and
both computations yield the parent directory. -/
theorem parentPath_spec_amended_witness :
    ("/a/b/".data ≠ ['/']) ∧
      _parentPath ("/a/b/".data) = claimedParentPath ("/a/b/".data) ∧
      _parentPath ("/a/b/".data) = ("/a/".data) :=
  ⟨by decide, parentPath_spec_amended ("/a/b/".data) (by decide), by decide⟩
